import Mathlib

/-!
Shallow embedding of `ticket_auth/ticket_factory.py` (class `TicketFactory`)
and proofs about its specification claims.

Python strings are modelled as `List Char` (a Python `str` is a sequence of
code points; we restrict to Unicode scalar values, i.e. we do not model lone
surrogates, on which `new` would fail to UTF-8-encode anyway).  Byte strings
are `List Nat` with entries `< 256`.  The text encoding parameter of
`new`/`validate` is fixed to its default `utf-8`.  The hash algorithm chosen
at construction time is modelled as an arbitrary function from the fed bytes
to the digest bytes, together with its `digest_size`.
-/

namespace TicketAuth

/-- Python `str.split(sep)` for a one-character separator `sep`
(`''.split(sep) == ['']`). -/
def splitOnChar (sep : Char) : List Char → List (List Char)
  | [] => [[]]
  | c :: cs =>
    match splitOnChar sep cs with
    | [] => [[]]
    | h :: t => if c = sep then [] :: h :: t else (c :: h) :: t

/-- Python `sep.join(parts)` for a one-character separator. -/
def joinSep (sep : Char) : List (List Char) → List Char
  | [] => []
  | [x] => x
  | x :: y :: xs => x ++ sep :: joinSep sep (y :: xs)

/-- Is `c` an ASCII hexadecimal digit (as accepted by `int(-, 16)` and by
`urllib.parse.unquote`)? -/
def isHexDigitChar (c : Char) : Bool :=
  (48 ≤ c.toNat && c.toNat ≤ 57) || (97 ≤ c.toNat && c.toNat ≤ 102)
    || (65 ≤ c.toNat && c.toNat ≤ 70)

/-- Numeric value of an ASCII hex digit (junk value 0 on other characters). -/
def hexVal (c : Char) : Nat :=
  if 48 ≤ c.toNat && c.toNat ≤ 57 then c.toNat - 48
  else if 97 ≤ c.toNat && c.toNat ≤ 102 then c.toNat - 87
  else if 65 ≤ c.toNat && c.toNat ≤ 70 then c.toNat - 55
  else 0

/-- Lower-case hex digit for a nibble, as produced by `hexdigest()` and by
Python's `format(-, 'x')`. -/
def nibbleChar (m : Nat) : Char :=
  if m < 10 then Char.ofNat (48 + m) else Char.ofNat (87 + m)

/-- Upper-case hex digit, as produced by `urllib.parse.quote`'s `%XX`. -/
def upperHexChar (m : Nat) : Char :=
  if m < 10 then Char.ofNat (48 + m) else Char.ofNat (55 + m)

/-- `bytes.hex()` / `hexdigest()`: two lower-case hex digits per byte. -/
def toHexChars : List Nat → List Char
  | [] => []
  | b :: bs => nibbleChar (b / 16) :: nibbleChar (b % 16) :: toHexChars bs

/-- Python `'{0:0kx}'.format(n)`: `k` big-endian lower-case hex digits of `n`,
zero padded (exactly the Python output whenever `n < 16^k`). -/
def hexPad : Nat → Nat → List Char
  | _, 0 => []
  | n, k + 1 => hexPad (n / 16) k ++ [nibbleChar (n % 16)]

/-- UTF-8 encoding of one Unicode scalar value (Python `str.encode('utf-8')`,
per character). -/
def utf8EncodeChar (c : Char) : List Nat :=
  let n := c.toNat
  if n < 128 then [n]
  else if n < 2048 then [192 + n / 64, 128 + n % 64]
  else if n < 65536 then [224 + n / 4096, 128 + n / 64 % 64, 128 + n % 64]
  else [240 + n / 262144, 128 + n / 4096 % 64, 128 + n / 64 % 64, 128 + n % 64]

/-- Python `str.encode('utf-8')`. -/
def utf8Encode : List Char → List Nat
  | [] => []
  | c :: cs => utf8EncodeChar c ++ utf8Encode cs

/-- The U+FFFD replacement character. -/
def replChar : Char := Char.ofNat 65533

/-- Classify a byte as the start of a UTF-8 sequence: returns the characters
emitted at once (an ASCII character, or U+FFFD for an impossible starter)
and the decoder state `(acc, needed, lo, hi)`: accumulated code-point bits,
number of continuation bytes still needed, and the allowed range of the next
byte. -/
def utf8Start (b : Nat) : List Char × (Nat × Nat × Nat × Nat) :=
  if b < 128 then ([Char.ofNat b], (0, 0, 0, 0))
  else if 194 ≤ b && b ≤ 223 then ([], (b - 192, 1, 128, 191))
  else if b = 224 then ([], (0, 2, 160, 191))
  else if b = 237 then ([], (13, 2, 128, 159))
  else if 224 ≤ b && b ≤ 239 then ([], (b - 224, 2, 128, 191))
  else if b = 240 then ([], (0, 3, 144, 191))
  else if b = 244 then ([], (4, 3, 128, 143))
  else if 240 ≤ b && b ≤ 244 then ([], (b - 240, 3, 128, 191))
  else ([replChar], (0, 0, 0, 0))

/-- Streaming UTF-8 decoder with `errors='replace'`: each maximal ill-formed
subpart becomes one U+FFFD (the behaviour of CPython's `'replace'` handler).
`needed = 0` means no multi-byte sequence is pending. -/
def utf8Run (acc needed lo hi : Nat) : List Nat → List Char
  | [] => if needed = 0 then [] else [replChar]
  | b :: bs =>
    if needed = 0 then
      let p := utf8Start b
      p.1 ++ utf8Run p.2.1 p.2.2.1 p.2.2.2.1 p.2.2.2.2 bs
    else if lo ≤ b && b ≤ hi then
      if needed = 1 then Char.ofNat (acc * 64 + (b - 128)) :: utf8Run 0 0 0 0 bs
      else utf8Run (acc * 64 + (b - 128)) (needed - 1) 128 191 bs
    else
      let p := utf8Start b
      replChar :: (p.1 ++ utf8Run p.2.1 p.2.2.1 p.2.2.2.1 p.2.2.2.2 bs)

/-- Python `bytes.decode('utf-8', 'replace')`. -/
def utf8DecodeReplace (l : List Nat) : List Char := utf8Run 0 0 0 0 l

/-- Bytes that `urllib.parse.quote` (with its default `safe='/'`) leaves
unescaped: ASCII letters, digits, `_ . ~ -` and the safe character `/`. -/
def isSafeByte (b : Nat) : Bool :=
  (65 ≤ b && b ≤ 90) || (97 ≤ b && b ≤ 122) || (48 ≤ b && b ≤ 57)
    || b = 95 || b = 46 || b = 126 || b = 45 || b = 47

/-- One byte of `urllib.parse.quote` output. -/
def quoteByte (b : Nat) : List Char :=
  if isSafeByte b then [Char.ofNat b]
  else ['%', upperHexChar (b / 16), upperHexChar (b % 16)]

/-- Percent-encode a byte string. -/
def quoteBytes : List Nat → List Char
  | [] => []
  | b :: bs => quoteByte b ++ quoteBytes bs

/-- Python `urllib.parse.quote(s)` with the default `safe='/'`:
UTF-8-encode, then percent-escape every unsafe byte. -/
def pyQuote (s : List Char) : List Char := quoteBytes (utf8Encode s)

/-- Tokenisation step of `urllib.parse.unquote`: a `%` followed by two hex
digits becomes that byte; any other ASCII character stands for its own byte
(a lone `%` included); non-ASCII characters pass through as characters. -/
def percentTokens : List Char → List (Nat ⊕ Char)
  | '%' :: c1 :: c2 :: rest =>
    if isHexDigitChar c1 && isHexDigitChar c2 then
      Sum.inl (16 * hexVal c1 + hexVal c2) :: percentTokens rest
    else Sum.inl 37 :: percentTokens (c1 :: c2 :: rest)
  | c :: rest => (if c.toNat < 128 then Sum.inl c.toNat else Sum.inr c) :: percentTokens rest
  | [] => []

/-- Decode the token stream: maximal runs of bytes are UTF-8-decoded with
`errors='replace'`; pass-through characters are kept.  `acc` holds the
current byte run, in reverse. -/
def decodeTokensAux (acc : List Nat) : List (Nat ⊕ Char) → List Char
  | [] => utf8DecodeReplace acc.reverse
  | Sum.inl b :: rest => decodeTokensAux (b :: acc) rest
  | Sum.inr c :: rest => utf8DecodeReplace acc.reverse ++ c :: decodeTokensAux [] rest

/-- Python `urllib.parse.unquote(s)` with the default
`encoding='utf-8', errors='replace'` (CPython's `_hextobyte` table accepts
exactly the ASCII hex digits in a `%XY` escape, as modelled here). -/
def pyUnquote (s : List Char) : List Char := decodeTokensAux [] (percentTokens s)

/-- `Py_UNICODE_ISSPACE`: the Unicode whitespace characters recognised by
CPython (`0x09`-`0x0D`, `0x1C`-`0x20`, NEL, NBSP, Ogham space mark, the
`0x2000`-`0x200A` spaces, line/paragraph separator, narrow NBSP, medium
mathematical space, ideographic space). -/
def isPyUnicodeSpace (c : Char) : Bool :=
  let n := c.toNat
  (9 ≤ n && n ≤ 13) || (28 ≤ n && n ≤ 32) || n = 133 || n = 160 || n = 5760
    || (8192 ≤ n && n ≤ 8202) || n = 8232 || n = 8233 || n = 8239 || n = 8287
    || n = 12288

/-- First code points of the runs of ten consecutive Unicode decimal digits
(general category `Nd`, each run carrying the values 0-9 in order), per
Unicode 15 as shipped with CPython 3.12/3.13. -/
def ndDigitStarts : List Nat :=
  [48, 1632, 1776, 1984, 2406, 2534, 2662, 2790, 2918, 3046, 3174, 3302,
   3430, 3558, 3664, 3792, 3872, 4160, 4240, 6112, 6160, 6470, 6608, 6784,
   6800, 6992, 7088, 7232, 7248, 42528, 43216, 43264, 43472, 43504, 43600,
   44016, 65296, 66720, 68912, 69734, 69872, 69942, 70096, 70384, 70736,
   70864, 71248, 71360, 71472, 71904, 72016, 72784, 73040, 73120, 73552,
   92768, 92864, 93008, 120782, 120792, 120802, 120812, 120822, 123200,
   123632, 124144, 125264, 130032]

/-- `Py_UNICODE_TODECIMAL`: the decimal-digit value of a Unicode `Nd`
digit, `none` for every other character. -/
def pyDigitVal (c : Char) : Option Nat :=
  (ndDigitStarts.find? (fun s => s ≤ c.toNat && c.toNat ≤ s + 9)).map
    (fun s => c.toNat - s)

/-- CPython's `_PyUnicode_TransformDecimalAndSpaceToASCII`, applied by
`int(str, base)` before parsing: characters below 127 pass through,
non-ASCII Unicode whitespace becomes a space, Unicode decimal digits
become the ASCII digit of the same value, and the first remaining
character becomes `?` with the rest of the string dropped. -/
def transformDecimalAndSpace : List Char → List Char
  | [] => []
  | c :: cs =>
    if c.toNat < 127 then c :: transformDecimalAndSpace cs
    else if isPyUnicodeSpace c then ' ' :: transformDecimalAndSpace cs
    else
      match pyDigitVal c with
      | some d => Char.ofNat (48 + d) :: transformDecimalAndSpace cs
      | none => ['?']

/-- ASCII whitespace stripped by Python's `int(str, base)` conversion. -/
def isPySpace (c : Char) : Bool :=
  c = ' ' || c = '\t' || c = '\n' || c = '\r' || c = Char.ofNat 11 || c = Char.ofNat 12

/-- Strip leading and trailing whitespace. -/
def stripPy (l : List Char) : List Char :=
  ((l.dropWhile isPySpace).reverse.dropWhile isPySpace).reverse

/-- Digit tail of an integer literal: hex digits with single underscores
allowed between digits. -/
def hexBodyGo (acc : Nat) : List Char → Option Nat
  | [] => some acc
  | '_' :: c :: cs =>
    if isHexDigitChar c then hexBodyGo (16 * acc + hexVal c) cs else none
  | ['_'] => none
  | c :: cs => if isHexDigitChar c then hexBodyGo (16 * acc + hexVal c) cs else none

/-- Digit part of an integer literal: at least one digit, underscores only
between digits. -/
def hexBody : List Char → Option Nat
  | [] => none
  | c :: cs => if isHexDigitChar c then hexBodyGo (hexVal c) cs else none

/-- After a `0x`/`0X` prefix one underscore may separate prefix and digits. -/
def hexAfterPrefix : List Char → Option Nat
  | '_' :: rest => hexBody rest
  | l => hexBody l

/-- Unsigned part of `int(s, 16)`: optional `0x`/`0X` prefix, then digits. -/
def hexMagnitude : List Char → Option Nat
  | '0' :: c :: rest =>
    if c = 'x' || c = 'X' then hexAfterPrefix rest else hexBody ('0' :: c :: rest)
  | l => hexBody l

/-- The ASCII parse performed by CPython's `_PyLong_FromString` on the
transformed text of `int(s, 16)`: strip ASCII whitespace, optional sign,
optional `0x`/`0X` prefix, hex digits with single underscores between
digits; `none` where CPython raises `ValueError`. -/
def pyIntHexAscii (s : List Char) : Option Int :=
  match stripPy s with
  | '-' :: rest => (hexMagnitude rest).map (fun n => -(n : Int))
  | '+' :: rest => (hexMagnitude rest).map (fun n => (n : Int))
  | l => (hexMagnitude l).map (fun n => (n : Int))

/-- Python `int(s, 16)` on a `str`: map Unicode decimal digits and Unicode
whitespace to ASCII first (so e.g. the Arabic-Indic digits of
`int('٨', 16)` are accepted), then parse the ASCII text. -/
def pyIntHex (s : List Char) : Option Int :=
  pyIntHexAscii (transformDecimalAndSpace s)

/-- An already-parsed IP address (the result of `ipaddress.ip_address`):
`version` is 4 or 6, `packed` the 4 or 16 raw address bytes. -/
inductive IPAddr
  | v4 (bytes : List Nat)
  | v6 (bytes : List Nat)
deriving DecidableEq

/-- `ip.version`. -/
def IPAddr.version : IPAddr → Nat
  | .v4 _ => 4
  | .v6 _ => 6

/-- `ip.packed`. -/
def IPAddr.packed : IPAddr → List Nat
  | .v4 bs => bs
  | .v6 bs => bs

/-- `struct.pack(">I", n)` for `0 ≤ n < 2^32`: 4 big-endian bytes. -/
def packBE4 (n : Nat) : List Nat :=
  [n / 16777216 % 256, n / 65536 % 256, n / 256 % 256, n % 256]

/-- The `TicketInfo` namedtuple. -/
structure TicketInfo where
  digest : List Char
  user_id : List Char
  tokens : List (List Char)
  user_data : List Char
  valid_until : Int
deriving DecidableEq

/-- The errors the factory can raise.  `parseError` carries the reason
string of `TicketParseError` (the offending ticket text, also stored on the
Python exception, is dropped); `digestError` is `TicketDigestError`,
`expired` is `TicketExpired`, and `structError` is the `struct.error` that
`pack(">I", valid_until)` raises for `valid_until` outside the unsigned
32-bit range and that `validate` does not catch. -/
inductive TicketError
  | parseError (reason : List Char)
  | digestError
  | expired
  | structError
deriving DecidableEq

/-- State of a `TicketFactory` object: the constructor-supplied `secret`
(bytes) and the stored hash object `self._hash`, modelled by the algorithm's
digest function `hashFn` (from fed bytes to digest bytes), its
`digest_size`, and the bytes `hashCtx` fed to the stored context so far. -/
structure TicketFactory where
  secret : List Nat
  hashFn : List Nat → List Nat
  digestSize : Nat
  hashCtx : List Nat

/-- `TicketFactory.__init__`: store the secret and a fresh (empty) hash
context for the chosen algorithm. -/
def mkFactory (secret : List Nat) (hashFn : List Nat → List Nat)
    (digestSize : Nat) : TicketFactory :=
  ⟨secret, hashFn, digestSize, []⟩

/-- Well-formedness of the modelled hash algorithm: digests have length
`digest_size` and consist of bytes, as for every `hashlib` algorithm. -/
def HashWF (f : TicketFactory) : Prop :=
  ∀ m, (f.hashFn m).length = f.digestSize ∧ ∀ b ∈ f.hashFn m, b < 256

/-- `TicketFactory._hexdigest(data0, data1)`, with the factory object
threaded explicitly.  Both `update` calls go to `copy()`s of the stored
context (`hash0`, `hash1`), so the factory's own state comes back
unchanged. -/
def hexdigestSt (f : TicketFactory) (data0 data1 : List Nat) :
    List Char × TicketFactory :=
  let hash0 := f.hashCtx ++ (data0 ++ f.secret ++ data1)
  let hash1 := f.hashCtx ++ (f.hashFn hash0 ++ f.secret)
  (toHexChars (f.hashFn hash1), f)

/-- The sentinel address used if no client ip is specified (`_DEFAULT_IP =
IPv4Address('0.0.0.0')`). -/
def defaultIP : IPAddr := .v4 [0, 0, 0, 0]

/-- `token_str` as computed by `new`: the comma join of the individually
percent-encoded tokens, empty when `tokens` is empty (Python `if tokens:`,
which is also false for the `None` default). -/
def tokenStr (tokens : List (List Char)) : List Char :=
  if tokens ≠ [] then joinSep ',' (tokens.map pyQuote) else []

/-- `user_str` as computed by `new` (empty for empty/`None` `user_data`). -/
def userStr (user_data : List Char) : List Char :=
  if user_data = [] then [] else pyQuote user_data

/-- `data0` as computed by `new`: one IP-version byte, the packed address
bytes, and `valid_until` as 4 big-endian bytes. -/
def data0Bytes (ip : IPAddr) (vu : Nat) : List Nat :=
  ip.version :: (ip.packed ++ packBE4 vu)

/-- `data1` as computed by `new`: the UTF-8 encoding of the NUL join of the
quoted `user_id`, `token_str` and `user_str`. -/
def data1Bytes (user_id : List Char) (tokens : List (List Char))
    (user_data : List Char) : List Nat :=
  utf8Encode (pyQuote user_id ++ Char.ofNat 0 ::
    (tokenStr tokens ++ Char.ofNat 0 :: userStr user_data))

/-- The hex digest string `_hexdigest(data0, data1)` evaluates to. -/
def digestOf (f : TicketFactory) (data0 data1 : List Nat) : List Char :=
  (hexdigestSt f data0 data1).1

/-- `TicketFactory.new(user_id, tokens, user_data, valid_until, client_ip)`
with the factory threaded explicitly.  Deviations forced by the embedding:
`encoding` is fixed to its default `'utf-8'`; `valid_until` is a required
argument (its Python default reads the wall clock, which no claim touches);
`tokens = none` and `tokens = some []` coincide (Python tests `if tokens:`),
so `tokens` is a plain list, and likewise `user_data` a plain string;
`client_ip` is an already-parsed address or `none`.  `struct.pack(">I", -)`
raising on a `valid_until` outside the unsigned 32-bit range is modelled by
returning `none`. -/
def newSt (f : TicketFactory) (user_id : List Char) (tokens : List (List Char))
    (user_data : List Char) (valid_until : Int) (client_ip : Option IPAddr) :
    Option (List Char) × TicketFactory :=
  if 0 ≤ valid_until ∧ valid_until < 4294967296 then
    let p := hexdigestSt f (data0Bytes (client_ip.getD defaultIP) valid_until.toNat)
      (data1Bytes user_id tokens user_data)
    (some (p.1 ++ hexPad valid_until.toNat 8 ++ pyQuote user_id ++
      '!' :: (tokenStr tokens ++ '!' :: userStr user_data)), p.2)
  else (none, f)

/-- `TicketFactory.new`, result only. -/
def TicketFactory.new (f : TicketFactory) (user_id : List Char)
    (tokens : List (List Char)) (user_data : List Char) (valid_until : Int)
    (client_ip : Option IPAddr) : Option (List Char) :=
  (newSt f user_id tokens user_data valid_until client_ip).1

/-- `TicketFactory._min_ticket_size()`. -/
def minTicketSize (f : TicketFactory) : Nat := f.digestSize * 2 + 8

/-- `TicketFactory.parse(ticket)`. -/
def TicketFactory.parse (f : TicketFactory) (ticket : List Char) :
    Except TicketError TicketInfo :=
  if ticket.length < minTicketSize f then
    .error (.parseError "Invalid ticket length".data)
  else
    let digestLen := f.digestSize * 2
    let digest := ticket.take digestLen
    match pyIntHex ((ticket.drop digestLen).take 8) with
    | none => .error (.parseError "Invalid time field".data)
    | some time =>
      match splitOnChar '!' (ticket.drop (digestLen + 8)) with
      | [p0, p1, p2] =>
        let user_id := pyUnquote p0
        let tokens := if p1 ≠ [] then (splitOnChar ',' p1).map pyUnquote else []
        let user_data := pyUnquote p2
        .ok ⟨digest, user_id, tokens, user_data, time⟩
      | _ => .error (.parseError "Missing parts".data)

/-- `parse` with the factory threaded (it only reads `digest_size`). -/
def parseSt (f : TicketFactory) (ticket : List Char) :
    Except TicketError TicketInfo × TicketFactory :=
  (f.parse ticket, f)

/-- `TicketFactory.validate(ticket, client_ip, now)` with the factory
threaded explicitly.  `now` is a required integer argument (its Python
default reads the wall clock; Python would also accept a float). -/
def validateSt (f : TicketFactory) (ticket : List Char)
    (client_ip : Option IPAddr) (now : Int) :
    Except TicketError TicketInfo × TicketFactory :=
  match parseSt f ticket with
  | (.error e, f1) => (.error e, f1)
  | (.ok parts, f1) =>
    let p := newSt f1 parts.user_id parts.tokens parts.user_data
      parts.valid_until client_ip
    match p.1 with
    | none => (.error .structError, p.2)
    | some new_ticket =>
      if new_ticket.take (p.2.digestSize * 2) ≠ parts.digest then
        (.error .digestError, p.2)
      else if parts.valid_until ≤ now then (.error .expired, p.2)
      else (.ok parts, p.2)

/-- `TicketFactory.validate`, result only. -/
def TicketFactory.validate (f : TicketFactory) (ticket : List Char)
    (client_ip : Option IPAddr) (now : Int) : Except TicketError TicketInfo :=
  (validateSt f ticket client_ip now).1

instance : DecidableEq (Except TicketError TicketInfo) := fun a b =>
  match a, b with
  | .ok x, .ok y =>
    if h : x = y then .isTrue (by rw [h])
    else .isFalse (fun hc => h (by cases hc; rfl))
  | .error x, .error y =>
    if h : x = y then .isTrue (by rw [h])
    else .isFalse (fun hc => h (by cases hc; rfl))
  | .ok _, .error _ => .isFalse (fun hc => Except.noConfusion hc)
  | .error _, .ok _ => .isFalse (fun hc => Except.noConfusion hc)

/-- Lower-case ASCII hex digit, the alphabet of `hexdigest()` and of
`format(-, 'x')`. -/
def isLowerHexChar (c : Char) : Bool :=
  (48 ≤ c.toNat && c.toNat ≤ 57) || (97 ≤ c.toNat && c.toNat ≤ 102)

/-- The secret of the spec's concrete scenario, as UTF-8 bytes. -/
def s3cretBytes : List Nat := utf8Encode "s3cret".data

/-- A stand-in digest function with `digest_size` `k`, used to instantiate
theorems about an arbitrary hash algorithm on concrete inputs. -/
def constHash (k : Nat) : List Nat → List Nat := fun _ => List.replicate k 0

/-- A small concrete factory (digest size 4, empty secret) for concrete
evaluations. -/
def testFactory : TicketFactory := mkFactory [] (constHash 4) 4

/-! ## Basic facts about characters and hex digits -/

theorem char_toNat_ofNat {n : Nat} (h : n < 55296) : (Char.ofNat n).toNat = n := by
  simp [Char.ofNat, Nat.isValidChar, h, Char.toNat, Char.ofNatAux,
    UInt32.toNat, BitVec.toNat_ofNatLt]

theorem char_eq_of_toNat {a b : Char} (h : a.toNat = b.toNat) : a = b :=
  Char.eq_of_val_eq (UInt32.eq_of_toBitVec_eq (BitVec.eq_of_toNat_eq h))

theorem nibbleChar_props {m : Nat} (h : m < 16) :
    isHexDigitChar (nibbleChar m) = true ∧ hexVal (nibbleChar m) = m ∧
    isLowerHexChar (nibbleChar m) = true ∧ nibbleChar m ≠ '_' ∧
    nibbleChar m ≠ 'x' ∧ nibbleChar m ≠ 'X' ∧ nibbleChar m ≠ '-' ∧
    nibbleChar m ≠ '+' ∧ isPySpace (nibbleChar m) = false ∧
    nibbleChar m ≠ '!' ∧ nibbleChar m ≠ ',' ∧ (nibbleChar m).toNat < 127 := by
  interval_cases m <;> decide

theorem upperHexChar_props {m : Nat} (h : m < 16) :
    isHexDigitChar (upperHexChar m) = true ∧ hexVal (upperHexChar m) = m ∧
    upperHexChar m ≠ '!' ∧ upperHexChar m ≠ ',' ∧
    upperHexChar m ≠ Char.ofNat 0 ∧ (upperHexChar m).toNat < 128 ∧
    upperHexChar m ≠ '%' := by
  interval_cases m <;> decide

theorem toHexChars_length (bs : List Nat) :
    (toHexChars bs).length = 2 * bs.length := by
  induction bs with
  | nil => rfl
  | cons b bs ih => simp [toHexChars, ih]; omega

theorem toHexChars_mem {bs : List Nat} {c : Char} (hb : ∀ b ∈ bs, b < 256)
    (hc : c ∈ toHexChars bs) : ∃ m, m < 16 ∧ c = nibbleChar m := by
  induction bs with
  | nil => cases hc
  | cons b bs ih =>
    have hb0 : b < 256 := hb b (List.mem_cons_self b bs)
    simp only [toHexChars, List.mem_cons] at hc
    rcases hc with h | h | h
    · exact ⟨b / 16, by omega, h⟩
    · exact ⟨b % 16, by omega, h⟩
    · exact ih (fun x hx => hb x (List.mem_cons_of_mem b hx)) h

theorem hexPad_length (k : Nat) : ∀ n, (hexPad n k).length = k := by
  induction k with
  | zero => intro n; rfl
  | succ k ih => intro n; simp [hexPad, ih]

theorem hexPad_mem {k : Nat} : ∀ {n : Nat} {c : Char}, c ∈ hexPad n k →
    ∃ m, m < 16 ∧ c = nibbleChar m := by
  induction k with
  | zero => intro n c hc; cases hc
  | succ k ih =>
    intro n c hc
    simp only [hexPad, List.mem_append, List.mem_singleton] at hc
    rcases hc with h | h
    · exact ih h
    · exact ⟨n % 16, Nat.mod_lt _ (by omega), h⟩

theorem hexPad_add (n j k : Nat) :
    hexPad n (j + k) = hexPad (n / 16 ^ k) j ++ hexPad (n % 16 ^ k) k := by
  induction k generalizing n with
  | zero => simp [hexPad, Nat.mod_one]
  | succ k ih =>
    have h1 : j + (k + 1) = (j + k) + 1 := by omega
    rw [h1, hexPad, ih (n / 16), hexPad]
    have h2 : n / 16 / 16 ^ k = n / 16 ^ (k + 1) := by
      rw [Nat.div_div_eq_div_mul, pow_succ]
      ring_nf
    have h3 : n / 16 % 16 ^ k = n % 16 ^ (k + 1) / 16 := by
      rw [pow_succ, mul_comm (16 ^ k) 16, Nat.mod_mul_right_div_self]
    have h4 : n % 16 = n % 16 ^ (k + 1) % 16 := by
      rw [Nat.mod_mod_of_dvd]
      exact ⟨16 ^ k, by rw [pow_succ]; ring⟩
    rw [h2, h3, h4, List.append_assoc]

theorem dropWhile_eq_self_of {p : Char → Bool} {l : List Char}
    (h : ∀ c ∈ l, p c = false) : l.dropWhile p = l := by
  cases l with
  | nil => rfl
  | cons a l => simp [List.dropWhile, h a (List.mem_cons_self a l)]

theorem stripPy_of_no_space {l : List Char}
    (h : ∀ c ∈ l, isPySpace c = false) : stripPy l = l := by
  unfold stripPy
  rw [dropWhile_eq_self_of h,
    dropWhile_eq_self_of (fun c hc => h c (List.mem_reverse.mp hc)),
    List.reverse_reverse]

theorem hexBodyGo_cons_digit {c : Char} (h : c ≠ '_') (acc : Nat)
    (cs : List Char) : hexBodyGo acc (c :: cs) =
      if isHexDigitChar c then hexBodyGo (16 * acc + hexVal c) cs else none := by
  cases cs with
  | nil => simp [hexBodyGo, h]
  | cons c2 cs2 => simp [hexBodyGo, h]

theorem hexBodyGo_hexPad {k : Nat} : ∀ {n : Nat}, n < 16 ^ k →
    ∀ (acc : Nat) (rest : List Char),
    hexBodyGo acc (hexPad n k ++ rest) = hexBodyGo (acc * 16 ^ k + n) rest := by
  induction k with
  | zero =>
    intro n hn acc rest
    interval_cases n
    simp [hexPad]
  | succ k ih =>
    intro n hn acc rest
    have hdiv : n / 16 < 16 ^ k := by
      apply Nat.div_lt_of_lt_mul
      rw [pow_succ] at hn
      omega
    rw [hexPad, List.append_assoc, ih hdiv]
    have hm : n % 16 < 16 := Nat.mod_lt _ (by omega)
    rw [List.singleton_append,
      hexBodyGo_cons_digit (nibbleChar_props hm).2.2.2.1,
      if_pos (nibbleChar_props hm).1, (nibbleChar_props hm).2.1]
    have harith : 16 * (acc * 16 ^ k + n / 16) + n % 16 =
        acc * 16 ^ (k + 1) + (16 * (n / 16) + n % 16) := by
      rw [pow_succ]; ring
    rw [harith]
    congr 1
    omega

theorem hexPad_one (m : Nat) : hexPad m 1 = [nibbleChar (m % 16)] := by
  simp [hexPad]

theorem pyIntHexAscii_no_sign {c : Char} {cs : List Char}
    (hs : ∀ x ∈ c :: cs, isPySpace x = false) (h1 : c ≠ '-') (h2 : c ≠ '+') :
    pyIntHexAscii (c :: cs) =
      (hexMagnitude (c :: cs)).map (fun n => (n : Int)) := by
  unfold pyIntHexAscii
  rw [stripPy_of_no_space hs]
  split
  · next rest heq => exact absurd (List.head_eq_of_cons_eq heq) h1
  · next rest heq => exact absurd (List.head_eq_of_cons_eq heq) h2
  · rfl

theorem hexMagnitude_no_prefix {c : Char} {cs : List Char}
    (hno : ∀ x ∈ cs, x ≠ 'x' ∧ x ≠ 'X') :
    hexMagnitude (c :: cs) = hexBody (c :: cs) := by
  unfold hexMagnitude
  split
  · next c2 rest heq =>
    have hcs : cs = c2 :: rest := List.tail_eq_of_cons_eq heq
    have hc2 : c2 ∈ cs := by rw [hcs]; exact List.mem_cons_self c2 rest
    rw [if_neg, ← heq]
    simp [(hno c2 hc2).1, (hno c2 hc2).2]
  · rfl

theorem hexBodyGo_nil (acc : Nat) : hexBodyGo acc [] = some acc := rfl

theorem hexBody_cons (c : Char) (cs : List Char) : hexBody (c :: cs) =
    if isHexDigitChar c then hexBodyGo (hexVal c) cs else none := rfl

theorem transform_of_ascii {l : List Char} (h : ∀ c ∈ l, c.toNat < 127) :
    transformDecimalAndSpace l = l := by
  induction l with
  | nil => rfl
  | cons c cs ih =>
    rw [transformDecimalAndSpace,
      if_pos (h c (List.mem_cons_self c cs)),
      ih (fun x hx => h x (List.mem_cons_of_mem c hx))]

theorem pyIntHexAscii_hexPad {n : Nat} (h : n < 4294967296) :
    pyIntHexAscii (hexPad n 8) = some (n : Int) := by
  have p7 : (16 : Nat) ^ 7 = 268435456 := by norm_num
  have hd16 : n / 16 ^ 7 % 16 < 16 := Nat.mod_lt _ (by omega)
  have props := nibbleChar_props hd16
  have hsplit : hexPad n 8 = nibbleChar (n / 16 ^ 7 % 16) :: hexPad (n % 16 ^ 7) 7 := by
    have q := hexPad_add n 1 7
    rw [hexPad_one] at q
    exact q
  have hmem8 : ∀ c ∈ hexPad n 8, ∃ m, m < 16 ∧ c = nibbleChar m :=
    fun c hc => hexPad_mem hc
  have hnos : ∀ c ∈ hexPad n 8, isPySpace c = false := by
    intro c hc
    obtain ⟨m, hm, rfl⟩ := hexPad_mem hc
    exact (nibbleChar_props hm).2.2.2.2.2.2.2.2.1
  rw [hsplit] at hnos
  rw [hsplit, pyIntHexAscii_no_sign hnos props.2.2.2.2.2.2.1
      props.2.2.2.2.2.2.2.1,
    hexMagnitude_no_prefix (by
      intro x hx
      obtain ⟨m, hm, rfl⟩ := hexPad_mem hx
      exact ⟨(nibbleChar_props hm).2.2.2.2.1, (nibbleChar_props hm).2.2.2.2.2.1⟩),
    hexBody_cons, if_pos props.1, props.2.1,
    ← List.append_nil (hexPad (n % 16 ^ 7) 7),
    hexBodyGo_hexPad (Nat.mod_lt _ (by omega)), hexBodyGo_nil]
  have hval : n / 16 ^ 7 % 16 * 16 ^ 7 + n % 16 ^ 7 = n := by omega
  rw [hval]
  simp

theorem pyIntHex_hexPad {n : Nat} (h : n < 4294967296) :
    pyIntHex (hexPad n 8) = some (n : Int) := by
  unfold pyIntHex
  rw [transform_of_ascii (fun c hc => by
    obtain ⟨m, hm, rfl⟩ := hexPad_mem hc
    exact (nibbleChar_props hm).2.2.2.2.2.2.2.2.2.2.2)]
  exact pyIntHexAscii_hexPad h

/-! ## UTF-8 encode/decode round trip -/

theorem char_toNat_ofNat_valid {n : Nat}
    (h : n < 55296 ∨ (57343 < n ∧ n < 1114112)) :
    (Char.ofNat n).toNat = n := by
  have h' : n.isValidChar := h
  rw [Char.ofNat, dif_pos h']
  simp [Char.ofNatAux, Char.toNat, UInt32.toNat, BitVec.toNat_ofNatLt]

theorem char_valid_nat (c : Char) :
    c.toNat < 55296 ∨ (57343 < c.toNat ∧ c.toNat < 1114112) := by
  rcases c.valid with h | h
  · left
    exact h
  · right
    exact h

theorem utf8Run_encodeChar (c : Char) (r : List Nat) :
    utf8Run 0 0 0 0 (utf8EncodeChar c ++ r) = c :: utf8Run 0 0 0 0 r := by
  have hv := char_valid_nat c
  have hofn : Char.ofNat c.toNat = c := Char.ofNat_toNat c
  by_cases h1 : c.toNat < 128
  · simp [utf8EncodeChar, h1, utf8Run, utf8Start, hofn]
  · by_cases h2 : c.toNat < 2048
    · have ha : ¬(192 + c.toNat / 64 < 128) := by omega
      have hb1 : 194 ≤ 192 + c.toNat / 64 := by omega
      have hb2 : 192 + c.toNat / 64 ≤ 223 := by omega
      have hc1 : 128 ≤ 128 + c.toNat % 64 := by omega
      have hc2 : 128 + c.toNat % 64 ≤ 191 := by omega
      simp [utf8EncodeChar, h1, h2, utf8Run, utf8Start, ha, hb1, hb2, hc1, hc2]
      apply char_eq_of_toNat
      rw [char_toNat_ofNat_valid (by omega)]
      omega
    · by_cases h3 : c.toNat < 65536
      · have ha : ¬(224 + c.toNat / 4096 < 128) := by omega
        have ha2 : ¬(224 + c.toNat / 4096 ≤ 223) := by omega
        have hb3a : 128 ≤ 128 + c.toNat / 64 % 64 := by omega
        have hb3b : 128 + c.toNat / 64 % 64 ≤ 191 := by omega
        have hc1 : 128 ≤ 128 + c.toNat % 64 := by omega
        have hc2 : 128 + c.toNat % 64 ≤ 191 := by omega
        by_cases hq0 : c.toNat / 4096 = 0
        · have hb2a : 160 ≤ 128 + c.toNat / 64 % 64 := by omega
          simp [utf8EncodeChar, h1, h2, h3, utf8Run, utf8Start, ha, ha2, hq0,
            hb2a, hb3b, hc1, hc2]
          apply char_eq_of_toNat
          rw [char_toNat_ofNat_valid (by omega)]
          omega
        · by_cases hq13 : c.toNat / 4096 = 13
          · have h237 : 224 + c.toNat / 4096 = 237 := by omega
            have hb2b : 128 + c.toNat / 64 % 64 ≤ 159 := by omega
            simp [utf8EncodeChar, h1, h2, h3, utf8Run, utf8Start, ha, ha2,
              h237, hb2b, hb3a, hc1, hc2]
            apply char_eq_of_toNat
            rw [char_toNat_ofNat_valid (by omega)]
            omega
          · have hne224 : ¬(224 + c.toNat / 4096 = 224) := by omega
            have hne237 : ¬(224 + c.toNat / 4096 = 237) := by omega
            have hle : 224 + c.toNat / 4096 ≤ 239 := by omega
            simp [utf8EncodeChar, h1, h2, h3, utf8Run, utf8Start, ha, ha2,
              hne224, hne237, hle, hb3a, hb3b, hc1, hc2]
            apply char_eq_of_toNat
            rw [char_toNat_ofNat_valid (by omega)]
            omega
      · have hmax : c.toNat < 1114112 := by omega
        have ha : ¬(240 + c.toNat / 262144 < 128) := by omega
        have ha2 : ¬(240 + c.toNat / 262144 ≤ 223) := by omega
        have ha3 : ¬(240 + c.toNat / 262144 ≤ 239) := by omega
        have ha4 : ¬(240 + c.toNat / 262144 = 224) := by omega
        have ha5 : ¬(240 + c.toNat / 262144 = 237) := by omega
        have hb3a : 128 ≤ 128 + c.toNat / 64 % 64 := by omega
        have hb3b : 128 + c.toNat / 64 % 64 ≤ 191 := by omega
        have hc1 : 128 ≤ 128 + c.toNat % 64 := by omega
        have hc2 : 128 + c.toNat % 64 ≤ 191 := by omega
        have hm2a : 128 ≤ 128 + c.toNat / 4096 % 64 := by omega
        have hm2b : 128 + c.toNat / 4096 % 64 ≤ 191 := by omega
        by_cases hq0 : c.toNat / 262144 = 0
        · have hb2a : 144 ≤ 128 + c.toNat / 4096 % 64 := by omega
          simp [utf8EncodeChar, h1, h2, h3, utf8Run, utf8Start, ha, ha2, ha3,
            ha4, ha5, hq0, hb2a, hm2b, hb3a, hb3b, hc1, hc2]
          apply char_eq_of_toNat
          rw [char_toNat_ofNat_valid (by omega)]
          omega
        · by_cases hq4 : c.toNat / 262144 = 4
          · have h244 : 240 + c.toNat / 262144 = 244 := by omega
            have hne240 : ¬(240 + c.toNat / 262144 = 240) := by omega
            have hb2b : 128 + c.toNat / 4096 % 64 ≤ 143 := by omega
            simp [utf8EncodeChar, h1, h2, h3, utf8Run, utf8Start, ha, ha2,
              ha3, ha4, ha5, h244, hne240, hm2a, hb2b, hb3a, hb3b, hc1, hc2]
            apply char_eq_of_toNat
            rw [char_toNat_ofNat_valid (by omega)]
            omega
          · have hne240 : ¬(240 + c.toNat / 262144 = 240) := by omega
            have hne244 : ¬(240 + c.toNat / 262144 = 244) := by omega
            have hle : 240 + c.toNat / 262144 ≤ 244 := by omega
            simp [utf8EncodeChar, h1, h2, h3, utf8Run, utf8Start, ha, ha2,
              ha3, ha4, ha5, hne240, hne244, hle, hm2a, hm2b, hb3a, hb3b,
              hc1, hc2]
            apply char_eq_of_toNat
            rw [char_toNat_ofNat_valid (by omega)]
            omega

theorem utf8DecodeReplace_encode (s : List Char) :
    utf8DecodeReplace (utf8Encode s) = s := by
  induction s with
  | nil => rfl
  | cons c cs ih =>
    simp only [utf8Encode, utf8DecodeReplace] at *
    rw [utf8Run_encodeChar, ih]

theorem utf8EncodeChar_lt {c : Char} {b : Nat} (hb : b ∈ utf8EncodeChar c) :
    b < 256 := by
  have hv := char_valid_nat c
  simp only [utf8EncodeChar] at hb
  by_cases h1 : c.toNat < 128
  · simp [h1] at hb
    omega
  · by_cases h2 : c.toNat < 2048
    · simp [h1, h2] at hb
      rcases hb with h | h <;> omega
    · by_cases h3 : c.toNat < 65536
      · simp [h1, h2, h3] at hb
        rcases hb with h | h | h <;> omega
      · simp [h1, h2, h3] at hb
        rcases hb with h | h | h | h <;> omega

theorem utf8EncodeChar_ne_nil (c : Char) : utf8EncodeChar c ≠ [] := by
  simp only [utf8EncodeChar]
  by_cases h1 : c.toNat < 128
  · simp [h1]
  · by_cases h2 : c.toNat < 2048
    · simp [h1, h2]
    · by_cases h3 : c.toNat < 65536
      · simp [h1, h2, h3]
      · simp [h1, h2, h3]

theorem utf8Encode_append (a b : List Char) :
    utf8Encode (a ++ b) = utf8Encode a ++ utf8Encode b := by
  induction a with
  | nil => rfl
  | cons c cs ih => simp [utf8Encode, ih]

theorem utf8Encode_lt {s : List Char} {b : Nat} (hb : b ∈ utf8Encode s) :
    b < 256 := by
  induction s with
  | nil => cases hb
  | cons c cs ih =>
    simp only [utf8Encode, List.mem_append] at hb
    rcases hb with h | h
    · exact utf8EncodeChar_lt h
    · exact ih h

theorem utf8Encode_eq_nil {s : List Char} (h : utf8Encode s = []) : s = [] := by
  cases s with
  | nil => rfl
  | cons c cs =>
    simp only [utf8Encode, List.append_eq_nil] at h
    exact absurd h.1 (utf8EncodeChar_ne_nil c)

/-! ## Characters produced by `quote` -/

theorem isSafeByte_facts {b : Nat} (hs : isSafeByte b = true) :
    b < 128 ∧ b ≠ 33 ∧ b ≠ 44 ∧ b ≠ 0 ∧ b ≠ 37 := by
  simp [isSafeByte] at hs
  omega

theorem quoteByte_props {b : Nat} (hb : b < 256) :
    ∀ c ∈ quoteByte b, c ≠ '!' ∧ c ≠ ',' ∧ c ≠ Char.ofNat 0 ∧ c.toNat < 128 := by
  intro c hc
  unfold quoteByte at hc
  by_cases hs : isSafeByte b
  · simp [hs] at hc
    subst hc
    obtain ⟨hb128, hne33, hne44, hne0, _⟩ := isSafeByte_facts hs
    have ht : (Char.ofNat b).toNat = b := char_toNat_ofNat (by omega)
    refine ⟨?_, ?_, ?_, by omega⟩
    · intro he
      rw [he] at ht
      exact hne33 ht.symm
    · intro he
      rw [he] at ht
      exact hne44 ht.symm
    · intro he
      rw [he] at ht
      exact hne0 (by rw [← ht]; rfl)
  · simp [hs] at hc
    have d1 : b / 16 < 16 := by omega
    have d2 : b % 16 < 16 := by omega
    rcases hc with h | h | h
    · subst h
      exact ⟨by decide, by decide, by decide, by decide⟩
    · subst h
      have p := upperHexChar_props d1
      exact ⟨p.2.2.1, p.2.2.2.1, p.2.2.2.2.1, p.2.2.2.2.2.1⟩
    · subst h
      have p := upperHexChar_props d2
      exact ⟨p.2.2.1, p.2.2.2.1, p.2.2.2.2.1, p.2.2.2.2.2.1⟩

theorem quoteBytes_mem {bs : List Nat} {c : Char} (hc : c ∈ quoteBytes bs) :
    ∃ b ∈ bs, c ∈ quoteByte b := by
  induction bs with
  | nil => cases hc
  | cons b bs ih =>
    simp only [quoteBytes, List.mem_append] at hc
    rcases hc with h | h
    · exact ⟨b, List.mem_cons_self b bs, h⟩
    · obtain ⟨b2, hb2, hcb⟩ := ih h
      exact ⟨b2, List.mem_cons_of_mem b hb2, hcb⟩

theorem pyQuote_props {s : List Char} :
    ∀ c ∈ pyQuote s, c ≠ '!' ∧ c ≠ ',' ∧ c ≠ Char.ofNat 0 ∧ c.toNat < 128 := by
  intro c hc
  obtain ⟨b, hb, hcb⟩ := quoteBytes_mem hc
  exact quoteByte_props (utf8Encode_lt hb) c hcb

theorem quoteByte_ne_nil (b : Nat) : quoteByte b ≠ [] := by
  unfold quoteByte
  by_cases hs : isSafeByte b <;> simp [hs]

theorem quoteBytes_eq_nil {bs : List Nat} (h : quoteBytes bs = []) : bs = [] := by
  cases bs with
  | nil => rfl
  | cons b bs =>
    simp only [quoteBytes, List.append_eq_nil] at h
    exact absurd h.1 (quoteByte_ne_nil b)

theorem pyQuote_eq_nil {s : List Char} (h : pyQuote s = []) : s = [] :=
  utf8Encode_eq_nil (quoteBytes_eq_nil h)

/-! ## `unquote (quote s) = s` -/

theorem percentTokens_cons_nonpct {c : Char} (h : c ≠ '%') (rest : List Char) :
    percentTokens (c :: rest) =
      (if c.toNat < 128 then Sum.inl c.toNat else Sum.inr c) ::
        percentTokens rest := by
  cases rest with
  | nil => simp [percentTokens]
  | cons c2 rest2 =>
    cases rest2 with
    | nil => simp [percentTokens]
    | cons c3 rest3 => simp [percentTokens, h]

theorem percentTokens_quoteByte {b : Nat} (hb : b < 256) (rest : List Char) :
    percentTokens (quoteByte b ++ rest) = Sum.inl b :: percentTokens rest := by
  unfold quoteByte
  by_cases hs : isSafeByte b
  · simp only [hs, if_true, List.singleton_append]
    obtain ⟨hb128, _, _, _, hne37⟩ := isSafeByte_facts hs
    have ht : (Char.ofNat b).toNat = b := char_toNat_ofNat (by omega)
    have hnp : Char.ofNat b ≠ '%' := by
      intro he
      rw [he] at ht
      exact hne37 ht.symm
    rw [percentTokens_cons_nonpct hnp, if_pos (by omega : (Char.ofNat b).toNat < 128), ht]
  · simp only [hs, Bool.false_eq_true, if_false]
    have d1 : b / 16 < 16 := by omega
    have d2 : b % 16 < 16 := by omega
    have p1 := upperHexChar_props d1
    have p2 := upperHexChar_props d2
    rw [show ['%', upperHexChar (b / 16), upperHexChar (b % 16)] ++ rest =
      '%' :: upperHexChar (b / 16) :: upperHexChar (b % 16) :: rest from rfl]
    rw [percentTokens]
    simp [p1.1, p2.1, p1.2.1, p2.2.1]
    omega

theorem percentTokens_quoteBytes {bs : List Nat} (hb : ∀ b ∈ bs, b < 256)
    (rest : List Char) : percentTokens (quoteBytes bs ++ rest) =
      bs.map Sum.inl ++ percentTokens rest := by
  induction bs with
  | nil => simp [quoteBytes]
  | cons b bs ih =>
    simp only [quoteBytes, List.append_assoc, List.map_cons, List.cons_append]
    rw [percentTokens_quoteByte (hb b (List.mem_cons_self b bs)),
      ih (fun x hx => hb x (List.mem_cons_of_mem b hx))]

theorem decodeTokensAux_inls (bs : List Nat) : ∀ acc,
    decodeTokensAux acc (bs.map Sum.inl) =
      utf8DecodeReplace (acc.reverse ++ bs) := by
  induction bs with
  | nil => intro acc; simp [decodeTokensAux]
  | cons b bs ih =>
    intro acc
    simp only [List.map_cons, decodeTokensAux]
    rw [ih (b :: acc)]
    simp

theorem pyUnquote_pyQuote (s : List Char) : pyUnquote (pyQuote s) = s := by
  unfold pyUnquote pyQuote
  rw [← List.append_nil (quoteBytes (utf8Encode s)),
    percentTokens_quoteBytes (fun b hb => utf8Encode_lt hb)]
  rw [show percentTokens [] = [] from rfl, List.append_nil,
    decodeTokensAux_inls]
  simp only [List.reverse_nil, List.nil_append]
  exact utf8DecodeReplace_encode s

/-! ## Splitting and joining -/

theorem splitOnChar_ne_nil (sep : Char) (l : List Char) :
    splitOnChar sep l ≠ [] := by
  induction l with
  | nil => simp [splitOnChar]
  | cons c cs ih =>
    simp only [splitOnChar]
    cases h : splitOnChar sep cs with
    | nil => exact absurd h ih
    | cons a t => by_cases hc : c = sep <;> simp [hc]

theorem splitOnChar_not_mem {sep : Char} {l : List Char} (h : sep ∉ l) :
    splitOnChar sep l = [l] := by
  induction l with
  | nil => rfl
  | cons c cs ih =>
    have hcne : ¬(c = sep) := fun he => h (he ▸ List.mem_cons_self c cs)
    have hcs : sep ∉ cs := fun hm => h (List.mem_cons_of_mem c hm)
    simp only [splitOnChar, ih hcs]
    simp [hcne]

theorem splitOnChar_append {sep : Char} {A : List Char} (B : List Char)
    (h : sep ∉ A) : splitOnChar sep (A ++ sep :: B) = A :: splitOnChar sep B := by
  induction A with
  | nil =>
    simp only [List.nil_append, splitOnChar]
    cases hB : splitOnChar sep B with
    | nil => exact absurd hB (splitOnChar_ne_nil sep B)
    | cons a t => simp
  | cons c cs ih =>
    have hcne : ¬(c = sep) := fun he => h (he ▸ List.mem_cons_self c cs)
    have hcs : sep ∉ cs := fun hm => h (List.mem_cons_of_mem c hm)
    rw [List.cons_append, splitOnChar, ih hcs]
    simp [hcne]

theorem splitOnChar_joinSep {sep : Char} {ps : List (List Char)} (hne : ps ≠ [])
    (h : ∀ p ∈ ps, sep ∉ p) : splitOnChar sep (joinSep sep ps) = ps := by
  induction ps with
  | nil => exact absurd rfl hne
  | cons p ps ih =>
    cases ps with
    | nil => exact splitOnChar_not_mem (h p (List.mem_cons_self p []))
    | cons q qs =>
      rw [joinSep, splitOnChar_append _ (h p (List.mem_cons_self p (q :: qs))),
        ih (by simp) (fun r hr => h r (List.mem_cons_of_mem p hr))]

theorem joinSep_mem {sep : Char} {ps : List (List Char)} {c : Char}
    (hc : c ∈ joinSep sep ps) : c = sep ∨ ∃ p ∈ ps, c ∈ p := by
  induction ps with
  | nil => cases hc
  | cons p ps ih =>
    cases ps with
    | nil => exact Or.inr ⟨p, List.mem_cons_self p [], hc⟩
    | cons q qs =>
      rw [joinSep] at hc
      rcases List.mem_append.mp hc with h | h
      · exact Or.inr ⟨p, List.mem_cons_self p (q :: qs), h⟩
      · rcases List.mem_cons.mp h with h | h
        · exact Or.inl h
        · rcases ih h with h | ⟨r, hr, hcr⟩
          · exact Or.inl h
          · exact Or.inr ⟨r, List.mem_cons_of_mem p hr, hcr⟩

theorem joinSep_eq_nil {sep : Char} {ps : List (List Char)}
    (h : joinSep sep ps = []) : ps = [] ∨ ps = [[]] := by
  cases ps with
  | nil => exact Or.inl rfl
  | cons p ps =>
    cases ps with
    | nil =>
      right
      rw [show joinSep sep [p] = p from rfl] at h
      rw [h]
    | cons q qs =>
      rw [joinSep] at h
      simp at h

/-! ## Parsing a ticket built from well-formed pieces -/

theorem parse_concat {f : TicketFactory} {dg p0 p1 p2 : List Char} {n : Nat}
    (hdg : dg.length = f.digestSize * 2) (hn : n < 4294967296)
    (h0 : '!' ∉ p0) (h1 : '!' ∉ p1) (h2 : '!' ∉ p2) :
    f.parse (dg ++ (hexPad n 8 ++ (p0 ++ '!' :: (p1 ++ '!' :: p2)))) =
      .ok ⟨dg, pyUnquote p0,
        if p1 ≠ [] then (splitOnChar ',' p1).map pyUnquote else [],
        pyUnquote p2, (n : Int)⟩ := by
  have h8 : (hexPad n 8).length = 8 := hexPad_length 8 n
  have hlen : (dg ++ (hexPad n 8 ++ (p0 ++ '!' :: (p1 ++ '!' :: p2)))).length =
      f.digestSize * 2 + 8 + (p0.length + 1 + (p1.length + 1 + p2.length)) := by
    simp [hdg, h8]
    omega
  have hdrop2 : List.drop (f.digestSize * 2 + 8)
      (dg ++ (hexPad n 8 ++ (p0 ++ '!' :: (p1 ++ '!' :: p2)))) =
      p0 ++ '!' :: (p1 ++ '!' :: p2) := by
    rw [← List.append_assoc]
    apply List.drop_left'
    simp [hdg, h8]
  simp only [TicketFactory.parse]
  rw [if_neg (by rw [hlen]; unfold minTicketSize; omega)]
  rw [List.take_left' hdg, List.drop_left' hdg, List.take_left' h8,
    pyIntHex_hexPad hn, hdrop2]
  rw [splitOnChar_append _ h0, splitOnChar_append _ h1,
    splitOnChar_not_mem h2]


theorem map_pyUnquote_pyQuote (l : List (List Char)) :
    (l.map pyQuote).map pyUnquote = l := by
  induction l with
  | nil => rfl
  | cons x xs ih => simp [pyUnquote_pyQuote, ih]

theorem bang_not_mem_pyQuote {s : List Char} : '!' ∉ pyQuote s :=
  fun hm => (pyQuote_props '!' hm).1 rfl

theorem comma_not_mem_pyQuote {s : List Char} : ',' ∉ pyQuote s :=
  fun hm => (pyQuote_props ',' hm).2.1 rfl

theorem pyUnquote_nil : pyUnquote [] = [] := rfl

/-- Round trip: parsing a ticket built by `new` recovers the original
`user_id`, `tokens`, `user_data` and `valid_until`, provided `valid_until`
packs into 4 bytes and `tokens` is not the single empty token (whose comma
join is indistinguishable from no tokens at all). -/
theorem new_eq_some {f : TicketFactory} (uid : List Char)
    (tks : List (List Char)) (ud : List Char) {vu : Int} (h0 : 0 ≤ vu)
    (h1 : vu < 4294967296) (ip : Option IPAddr) :
    f.new uid tks ud vu ip =
      some (digestOf f (data0Bytes (ip.getD defaultIP) vu.toNat)
          (data1Bytes uid tks ud) ++
        hexPad vu.toNat 8 ++ pyQuote uid ++
        '!' :: (tokenStr tks ++ '!' :: userStr ud)) := by
  simp only [TicketFactory.new, newSt, digestOf]
  rw [if_pos (⟨h0, h1⟩ : 0 ≤ vu ∧ vu < 4294967296)]

theorem digestOf_length {f : TicketFactory} (hwf : HashWF f)
    (d0 d1 : List Nat) : (digestOf f d0 d1).length = f.digestSize * 2 := by
  simp only [digestOf, hexdigestSt, toHexChars_length, (hwf _).1]
  omega

theorem bang_not_mem_tokenStr {tks : List (List Char)} :
    '!' ∉ tokenStr tks := by
  unfold tokenStr
  by_cases htks : tks = []
  · simp [htks]
  · simp only [htks, ne_eq, not_false_iff, if_true]
    intro hm
    rcases joinSep_mem hm with h | ⟨p, hp, hcp⟩
    · exact absurd h (by decide)
    · obtain ⟨x, _, rfl⟩ := List.mem_map.mp hp
      exact bang_not_mem_pyQuote hcp

theorem bang_not_mem_userStr {ud : List Char} : '!' ∉ userStr ud := by
  unfold userStr
  by_cases hud : ud = []
  · simp [hud]
  · simp only [hud, if_false]
    exact bang_not_mem_pyQuote

theorem pyUnquote_userStr (ud : List Char) : pyUnquote (userStr ud) = ud := by
  unfold userStr
  by_cases hud : ud = []
  · simp [hud, pyUnquote_nil]
  · simp only [hud, if_false]
    exact pyUnquote_pyQuote ud

theorem tokenStr_round {tks : List (List Char)} (htk : tks ≠ [[]]) :
    (if tokenStr tks ≠ [] then
      (splitOnChar ',' (tokenStr tks)).map pyUnquote else []) = tks := by
  unfold tokenStr
  by_cases htks : tks = []
  · simp [htks]
  · simp only [htks, ne_eq, not_false_iff, if_true]
    have hts : joinSep ',' (List.map pyQuote tks) ≠ [] := by
      intro hj
      rcases joinSep_eq_nil hj with h | h
      · exact htks (List.map_eq_nil.mp h)
      · obtain ⟨x, xs, hx, hq, hxs⟩ := List.map_eq_cons.mp h
        have hxs2 : xs = [] := List.map_eq_nil.mp hxs
        have hx2 : x = [] := pyQuote_eq_nil hq
        exact htk (by rw [hx, hx2, hxs2])
    simp only [hts, ne_eq, not_false_iff, if_true]
    rw [splitOnChar_joinSep (fun hmn => htks (List.map_eq_nil.mp hmn))
      (fun p hp => by
        obtain ⟨x, _, rfl⟩ := List.mem_map.mp hp
        exact comma_not_mem_pyQuote)]
    exact map_pyUnquote_pyQuote tks

/-- Round trip: parsing a ticket built by `new` recovers the original
`user_id`, `tokens`, `user_data` and `valid_until`, provided `valid_until`
packs into 4 bytes and `tokens` is not the single empty token (whose comma
join is indistinguishable from no tokens at all). -/
theorem parse_new {f : TicketFactory} (hwf : HashWF f) (uid : List Char)
    (tks : List (List Char)) (ud : List Char) {vu : Int} (h0 : 0 ≤ vu)
    (h1 : vu < 4294967296) (ip : Option IPAddr) (htk : tks ≠ [[]])
    {t : List Char} (hT : f.new uid tks ud vu ip = some t) :
    f.parse t = .ok ⟨digestOf f (data0Bytes (ip.getD defaultIP) vu.toNat)
      (data1Bytes uid tks ud), uid, tks, ud, vu⟩ := by
  rw [new_eq_some uid tks ud h0 h1 ip] at hT
  injection hT with hT
  subst hT
  rw [List.append_assoc, List.append_assoc]
  have hvu : vu.toNat < 4294967296 := by omega
  rw [parse_concat (digestOf_length hwf _ _) hvu bang_not_mem_pyQuote
    bang_not_mem_tokenStr bang_not_mem_userStr]
  rw [pyUnquote_pyQuote, pyUnquote_userStr, tokenStr_round htk,
    Int.toNat_of_nonneg h0]


/-! ## Facts about `validate` and statelessness -/

theorem newSt_state (f : TicketFactory) (uid : List Char)
    (tks : List (List Char)) (ud : List Char) (vu : Int)
    (ip : Option IPAddr) : (newSt f uid tks ud vu ip).2 = f := by
  unfold newSt
  split <;> rfl

theorem validate_parse_error {f : TicketFactory} {t : List Char}
    {ip : Option IPAddr} {now : Int} {e : TicketError}
    (h : f.parse t = .error e) : f.validate t ip now = .error e := by
  unfold TicketFactory.validate validateSt parseSt
  rw [h]

theorem validate_ok_struct {f : TicketFactory} {t : List Char}
    {ip : Option IPAddr} {now : Int} {parts : TicketInfo}
    (hp : f.parse t = .ok parts)
    (hn : f.new parts.user_id parts.tokens parts.user_data parts.valid_until
      ip = none) : f.validate t ip now = .error .structError := by
  unfold TicketFactory.validate validateSt parseSt
  rw [hp]
  have hn2 : (newSt f parts.user_id parts.tokens parts.user_data
      parts.valid_until ip).1 = none := hn
  simp only [hn2]

theorem validate_ok_some {f : TicketFactory} {t : List Char}
    {ip : Option IPAddr} {now : Int} {parts : TicketInfo} {nt : List Char}
    (hp : f.parse t = .ok parts)
    (hn : f.new parts.user_id parts.tokens parts.user_data parts.valid_until
      ip = some nt) : f.validate t ip now =
      if nt.take (f.digestSize * 2) ≠ parts.digest then .error .digestError
      else if parts.valid_until ≤ now then .error .expired
      else .ok parts := by
  unfold TicketFactory.validate validateSt parseSt
  rw [hp]
  have hn2 : (newSt f parts.user_id parts.tokens parts.user_data
      parts.valid_until ip).1 = some nt := hn
  simp only [hn2, newSt_state]
  split_ifs <;> rfl

theorem new_isSome_iff (f : TicketFactory) (uid : List Char)
    (tks : List (List Char)) (ud : List Char) (vu : Int)
    (ip : Option IPAddr) :
    (f.new uid tks ud vu ip).isSome ↔ (0 ≤ vu ∧ vu < 4294967296) := by
  unfold TicketFactory.new newSt
  by_cases h : 0 ≤ vu ∧ vu < 4294967296 <;> simp [h]

theorem tokenStr_eq (tks : List (List Char)) :
    tokenStr tks = joinSep ',' (tks.map pyQuote) := by
  unfold tokenStr
  by_cases h : tks = [] <;> simp [h, joinSep]

theorem userStr_eq (ud : List Char) : userStr ud = pyQuote ud := by
  unfold userStr
  by_cases h : ud = []
  · subst h
    rfl
  · simp [h]

theorem constHash_wf (sec : List Nat) (k : Nat) :
    HashWF (mkFactory sec (constHash k) k) := by
  intro m
  constructor
  · simp [constHash, mkFactory]
  · intro b hb
    simp [constHash, mkFactory] at hb
    omega

theorem testFactory_wf : HashWF testFactory := constHash_wf [] 4


/-! ## Claim theorems -/

/-- Claim C8: `new`, `parse` and `validate` leave the factory state (secret
and stored hash context) unchanged, and a repeated call on the resulting
state returns the same result: the factory is stateless across calls. -/
theorem C8_stateless (f : TicketFactory) (uid : List Char)
    (tks : List (List Char)) (ud : List Char) (vu now : Int)
    (ip : Option IPAddr) (t : List Char) :
    (newSt f uid tks ud vu ip).2 = f ∧ (parseSt f t).2 = f ∧
    (validateSt f t ip now).2 = f ∧
    (newSt ((newSt f uid tks ud vu ip).2) uid tks ud vu ip).1 =
      (newSt f uid tks ud vu ip).1 := by
  refine ⟨newSt_state f uid tks ud vu ip, rfl, ?_, by rw [newSt_state]⟩
  unfold validateSt parseSt
  cases hp : f.parse t with
  | error e => simp
  | ok parts =>
    simp only
    cases hn : (newSt f parts.user_id parts.tokens parts.user_data
        parts.valid_until ip).1 with
    | none => simp [hn, newSt_state]
    | some nt =>
      simp only [hn, newSt_state]
      split_ifs <;> simp [newSt_state]

/-- Claim C10: `new` returns a ticket exactly when `valid_until` is in the
unsigned 32-bit range (otherwise `pack(">I", -)` raises and no ticket is
returned), and the returned ticket carries the expiry as exactly the 8
zero-padded hex digits of `valid_until`. -/
theorem C10_pack_range (f : TicketFactory) (hwf : HashWF f) (uid : List Char)
    (tks : List (List Char)) (ud : List Char) (vu : Int) (ip : Option IPAddr) :
    ((vu < 0 ∨ 4294967296 ≤ vu) → f.new uid tks ud vu ip = none) ∧
    (0 ≤ vu → vu < 4294967296 → ∃ t, f.new uid tks ud vu ip = some t ∧
      (t.drop (f.digestSize * 2)).take 8 = hexPad vu.toNat 8 ∧
      (hexPad vu.toNat 8).length = 8) := by
  constructor
  · intro hout
    unfold TicketFactory.new newSt
    rw [if_neg (by omega)]
  · intro h0 h1
    refine ⟨_, new_eq_some uid tks ud h0 h1 ip, ?_, hexPad_length 8 vu.toNat⟩
    rw [List.append_assoc, List.append_assoc,
      List.drop_left' (digestOf_length hwf _ _),
      List.take_left' (hexPad_length 8 vu.toNat)]

/-- Claim C10 witness: at `valid_until = -1` and `valid_until = 2^32` no
ticket is produced; at `valid_until = 7` one is. -/
theorem C10_witness :
    testFactory.new "u".data [] [] (-1) none = none ∧
    testFactory.new "u".data [] [] 4294967296 none = none ∧
    (∃ t, testFactory.new "u".data [] [] 7 none = some t ∧
      (t.drop (testFactory.digestSize * 2)).take 8 = hexPad (7 : Int).toNat 8 ∧
      (hexPad (7 : Int).toNat 8).length = 8) :=
  ⟨(C10_pack_range testFactory testFactory_wf "u".data [] [] (-1) none).1
      (by omega),
    (C10_pack_range testFactory testFactory_wf "u".data [] [] 4294967296
      none).1 (by omega),
    (C10_pack_range testFactory testFactory_wf "u".data [] [] 7 none).2
      (by omega) (by omega)⟩

/-- Claim C1 (counterexample): the round trip fails as stated for the token
sequence consisting of one empty string: `new` serialises it like no tokens
at all, and `parse` returns the empty token sequence. -/
theorem C1_counterexample :
    testFactory.new "u".data [[]] "d".data 7 none =
      some "0000000000000007u!!d".data ∧
    testFactory.parse "0000000000000007u!!d".data =
      .ok ⟨"00000000".data, "u".data, [], "d".data, 7⟩ ∧
    ([] : List (List Char)) ≠ [[]] := by
  decide

/-- Claim C1 (amended): for every valid field tuple whose `valid_until`
packs into 4 bytes and whose token sequence is not exactly one empty
string, parsing the ticket produced by `new` returns exactly the original
`user_id`, `tokens`, `user_data` and `valid_until`. -/
theorem C1_roundtrip (f : TicketFactory) (hwf : HashWF f) (uid : List Char)
    (tks : List (List Char)) (ud : List Char) (vu : Int) (ip : Option IPAddr)
    (h0 : 0 ≤ vu) (h1 : vu < 4294967296) (htk : tks ≠ [[]]) :
    ∃ t, f.new uid tks ud vu ip = some t ∧
      ∃ dg, f.parse t = .ok ⟨dg, uid, tks, ud, vu⟩ :=
  ⟨_, new_eq_some uid tks ud h0 h1 ip, _,
    parse_new hwf uid tks ud h0 h1 ip htk (new_eq_some uid tks ud h0 h1 ip)⟩

/-- Claim C1 witness: the round trip at a concrete factory and field
tuple. -/
theorem C1_witness :
    HashWF testFactory ∧ (0 : Int) ≤ 7 ∧ (7 : Int) < 4294967296 ∧
    ["tok".data] ≠ [([] : List Char)] ∧
    (∃ t, testFactory.new "u".data ["tok".data] "d".data 7 none = some t ∧
      ∃ dg, testFactory.parse t =
        .ok ⟨dg, "u".data, ["tok".data], "d".data, 7⟩) :=
  ⟨testFactory_wf, by omega, by omega, by decide,
    C1_roundtrip testFactory testFactory_wf "u".data ["tok".data] "d".data 7
      none (by omega) (by omega) (by decide)⟩

/-- Claim C3 (counterexample): `validate` does not always reach the digest
comparison: a ticket whose 8-character time field is `-0000001` parses
(Python `int(-, 16)` accepts a sign), and recomputing the ticket then fails
at `pack(">I", -1)` with `struct.error`, so `validate` raises neither
`DigestError` nor `ExpiredError` and returns no tuple. -/
theorem C3_counterexample :
    testFactory.parse "00000000-0000001!!".data =
      .ok ⟨"00000000".data, [], [], [], -1⟩ ∧
    testFactory.validate "00000000-0000001!!".data none 0 =
      .error .structError := by
  decide

/-- Claim C3 (amended): `validate` parses first and propagates `ParseError`;
when parsing succeeds and the recomputation of the ticket from the parsed
fields does not itself fail (which it does, with a propagated
`struct.error`, exactly when the parsed `valid_until` is outside the
unsigned 32-bit range), a digest mismatch on the first `digest_size * 2`
characters raises `DigestError` before the expiry check is performed, and
on digest match plus unexpired ticket the parsed 5-tuple is returned. -/
theorem C3_validate_order (f : TicketFactory) (t : List Char)
    (ip : Option IPAddr) (now : Int) :
    (∀ e, f.parse t = .error e → f.validate t ip now = .error e) ∧
    (∀ parts, f.parse t = .ok parts →
      (f.new parts.user_id parts.tokens parts.user_data parts.valid_until ip =
        none → f.validate t ip now = .error .structError) ∧
      (∀ nt, f.new parts.user_id parts.tokens parts.user_data
          parts.valid_until ip = some nt →
        (nt.take (f.digestSize * 2) ≠ parts.digest →
          f.validate t ip now = .error .digestError) ∧
        (nt.take (f.digestSize * 2) = parts.digest →
          now < parts.valid_until → f.validate t ip now = .ok parts))) := by
  refine ⟨fun e he => validate_parse_error he, fun parts hp =>
    ⟨fun hn => validate_ok_struct hp hn, fun nt hn =>
      ⟨fun hne => ?_, fun hd hnow => ?_⟩⟩⟩
  · rw [validate_ok_some hp hn, if_pos hne]
  · rw [validate_ok_some hp hn, if_neg (fun hc => hc hd), if_neg (by omega)]

/-- Claim C3 witness: a tampered ticket that is also expired fails with
`DigestError`, not `ExpiredError` (digest check before expiry check). -/
theorem C3_witness :
    testFactory.parse "deadbeef00000001!!".data =
      .ok ⟨"deadbeef".data, [], [], [], 1⟩ ∧
    testFactory.new [] [] [] 1 none = some "0000000000000001!!".data ∧
    "0000000000000001!!".data.take (testFactory.digestSize * 2) ≠
      "deadbeef".data ∧
    testFactory.validate "deadbeef00000001!!".data none 100 =
      .error .digestError := by
  refine ⟨by decide, by decide, by decide, ?_⟩
  exact ((C3_validate_order testFactory "deadbeef00000001!!".data none
      100).2 ⟨"deadbeef".data, [], [], [], 1⟩ (by decide)).2
    "0000000000000001!!".data (by decide) |>.1 (by decide)

/-- Claim C4: once a ticket parses and its digest matches, `validate`
raises `ExpiredError` exactly when `valid_until ≤ now`; in particular
`valid_until = now` is rejected as expired and `valid_until = now + 1`
passes and returns the parsed tuple. -/
theorem C4_expiry_boundary (f : TicketFactory) (t : List Char)
    (ip : Option IPAddr) (now : Int) (parts : TicketInfo) (nt : List Char)
    (hp : f.parse t = .ok parts)
    (hn : f.new parts.user_id parts.tokens parts.user_data parts.valid_until
      ip = some nt)
    (hd : nt.take (f.digestSize * 2) = parts.digest) :
    (f.validate t ip now = .error .expired ↔ parts.valid_until ≤ now) ∧
    (parts.valid_until = now → f.validate t ip now = .error .expired) ∧
    (parts.valid_until = now + 1 → f.validate t ip now = .ok parts) := by
  have hv := @validate_ok_some f t ip now parts nt hp hn
  rw [if_neg (fun hc => hc hd)] at hv
  refine ⟨?_, ?_, ?_⟩
  · by_cases hle : parts.valid_until ≤ now
    · rw [if_pos hle] at hv
      simp [hv, hle]
    · rw [if_neg hle] at hv
      simp [hv, hle]
  · intro he
    rw [if_pos (by omega)] at hv
    exact hv
  · intro he
    rw [if_neg (by omega)] at hv
    exact hv

/-- Claim C4 witness: a matching ticket with `valid_until = 5` is expired
at `now = 5` and valid at `now = 4`. -/
theorem C4_witness :
    testFactory.validate "0000000000000005!!".data none 5 =
      .error .expired ∧
    testFactory.validate "0000000000000005!!".data none 4 =
      .ok ⟨"00000000".data, [], [], [], 5⟩ :=
  ⟨((C4_expiry_boundary testFactory "0000000000000005!!".data none 5
      ⟨"00000000".data, [], [], [], 5⟩ "0000000000000005!!".data (by decide)
      (by decide) (by decide)).2.1 (by decide)),
    ((C4_expiry_boundary testFactory "0000000000000005!!".data none 4
      ⟨"00000000".data, [], [], [], 5⟩ "0000000000000005!!".data (by decide)
      (by decide) (by decide)).2.2 (by decide))⟩


/-- Claim C5 (counterexample): the time field `-0000001` is not an 8-digit
unsigned hexadecimal number, yet `parse` accepts it (Python `int(-, 16)`
allows a sign) and returns a tuple with `valid_until = -1` instead of
raising `ParseError`. -/
theorem C5_counterexample :
    ("00000000-0000001!!".data.drop (testFactory.digestSize * 2)).take 8 =
      "-0000001".data ∧
    ¬ (∀ c ∈ "-0000001".data, isHexDigitChar c = true) ∧
    testFactory.parse "00000000-0000001!!".data =
      .ok ⟨"00000000".data, [], [], [], -1⟩ := by
  decide

/-- Claim C5 (amended): `parse` raises `ParseError` exactly in three cases,
checked in this order: the text is shorter than `digest_size * 2 + 8`; the
8 characters after the digest are rejected by Python `int(-, 16)` (which,
beyond 8 plain hex digits, first maps Unicode decimal digits and Unicode
whitespace to ASCII and then also accepts surrounding whitespace, a sign, a
`0x` prefix and underscores between digits); the remainder does not split
on `!` into exactly 3 fields.  In every other case `parse` returns a
5-tuple, and `parse` never reads the secret or the hash function: it
depends on the factory only through `digest_size`. -/
theorem C5_parse_errors (f : TicketFactory) (t : List Char) :
    (f.parse t = .error (.parseError "Invalid ticket length".data) ↔
      t.length < f.digestSize * 2 + 8) ∧
    (f.parse t = .error (.parseError "Invalid time field".data) ↔
      (¬ t.length < f.digestSize * 2 + 8 ∧
        pyIntHex ((t.drop (f.digestSize * 2)).take 8) = none)) ∧
    (f.parse t = .error (.parseError "Missing parts".data) ↔
      (¬ t.length < f.digestSize * 2 + 8 ∧
        pyIntHex ((t.drop (f.digestSize * 2)).take 8) ≠ none ∧
        (splitOnChar '!' (t.drop (f.digestSize * 2 + 8))).length ≠ 3)) ∧
    ((∃ i, f.parse t = .ok i) ↔
      (¬ t.length < f.digestSize * 2 + 8 ∧
        pyIntHex ((t.drop (f.digestSize * 2)).take 8) ≠ none ∧
        (splitOnChar '!' (t.drop (f.digestSize * 2 + 8))).length = 3)) ∧
    (∀ g : TicketFactory, g.digestSize = f.digestSize →
      g.parse t = f.parse t) := by
  have hind : ∀ g : TicketFactory, g.digestSize = f.digestSize →
      g.parse t = f.parse t := by
    intro g hds
    simp only [TicketFactory.parse, minTicketSize, hds]
  have e12 : ("Invalid ticket length".data = "Invalid time field".data) =
      False := eq_false (by decide)
  have e21 : ("Invalid time field".data = "Invalid ticket length".data) =
      False := eq_false (by decide)
  have e13 : ("Invalid ticket length".data = "Missing parts".data) = False :=
    eq_false (by decide)
  have e31 : ("Missing parts".data = "Invalid ticket length".data) = False :=
    eq_false (by decide)
  have e23 : ("Invalid time field".data = "Missing parts".data) = False :=
    eq_false (by decide)
  have e32 : ("Missing parts".data = "Invalid time field".data) = False :=
    eq_false (by decide)
  by_cases hL : t.length < f.digestSize * 2 + 8
  · have hpe : f.parse t =
        .error (.parseError "Invalid ticket length".data) := by
      simp only [TicketFactory.parse, minTicketSize]
      rw [if_pos hL]
    refine ⟨by simp [hpe, hL], ?_, ?_, ?_, hind⟩
    · rw [hpe]
      simp [hL, e12]
    · rw [hpe]
      simp [hL, e13]
    · rw [hpe]
      simp [hL]
  · cases ht : pyIntHex ((t.drop (f.digestSize * 2)).take 8) with
    | none =>
      have hpe : f.parse t =
          .error (.parseError "Invalid time field".data) := by
        simp only [TicketFactory.parse, minTicketSize]
        rw [if_neg hL, ht]
      refine ⟨?_, ?_, ?_, ?_, hind⟩
      · rw [hpe]
        simp [hL, e21]
      · rw [hpe]
        simp [hL]
      · rw [hpe]
        simp [hL, e23]
      · rw [hpe]
        simp [hL]
    | some v =>
      by_cases h3 : (splitOnChar '!' (t.drop (f.digestSize * 2 + 8))).length = 3
      · obtain ⟨a, b, c, habc⟩ := List.length_eq_three.mp h3
        have hok : f.parse t = .ok ⟨t.take (f.digestSize * 2), pyUnquote a,
            if b ≠ [] then (splitOnChar ',' b).map pyUnquote else [],
            pyUnquote c, v⟩ := by
          simp only [TicketFactory.parse, minTicketSize]
          rw [if_neg hL, ht, habc]
        refine ⟨?_, ?_, ?_, ?_, hind⟩
        · rw [hok]
          simp [hL]
        · rw [hok]
          simp [ht]
        · rw [hok]
          simp [h3]
        · rw [hok]
          simp [hL, ht, h3]
      · have hpe : f.parse t = .error (.parseError "Missing parts".data) := by
          simp only [TicketFactory.parse, minTicketSize]
          rw [if_neg hL, ht]
          rcases hsp : splitOnChar '!' (t.drop (f.digestSize * 2 + 8)) with
            _ | ⟨a, _ | ⟨b, _ | ⟨c, _ | ⟨d, l⟩⟩⟩⟩
          · rfl
          · rfl
          · rfl
          · rw [hsp] at h3
            simp at h3
          · rfl
        refine ⟨?_, ?_, ?_, ?_, hind⟩
        · rw [hpe]
          simp [hL, e31]
        · rw [hpe]
          simp [hL, e32]
        · rw [hpe]
          simp [hL, ht, h3]
        · rw [hpe]
          simp [h3]

/-- Claim C5 witness: a well-formed minimal ticket parses; a ticket whose
time field is the Arabic-Indic digits U+0661-U+0668 parses too (Python
`int(-, 16)` maps Unicode decimal digits to ASCII); a short ticket and two
malformed ones fail with the matching reasons. -/
theorem C5_witness :
    (∃ i, testFactory.parse "0000000000000005!!".data = .ok i) ∧
    (∃ i, testFactory.parse ("00000000".data ++
      [Char.ofNat 1633, Char.ofNat 1634, Char.ofNat 1635, Char.ofNat 1636,
        Char.ofNat 1637, Char.ofNat 1638, Char.ofNat 1639, Char.ofNat 1640] ++
      "!!".data) = .ok i) ∧
    testFactory.parse "0".data =
      .error (.parseError "Invalid ticket length".data) ∧
    testFactory.parse "00000000gggggggg!!".data =
      .error (.parseError "Invalid time field".data) ∧
    testFactory.parse "0000000000000005!".data =
      .error (.parseError "Missing parts".data) :=
  ⟨(C5_parse_errors testFactory "0000000000000005!!".data).2.2.2.1.mpr
      ⟨by decide, by decide, by decide⟩,
    (C5_parse_errors testFactory ("00000000".data ++
      [Char.ofNat 1633, Char.ofNat 1634, Char.ofNat 1635, Char.ofNat 1636,
        Char.ofNat 1637, Char.ofNat 1638, Char.ofNat 1639, Char.ofNat 1640] ++
      "!!".data)).2.2.2.1.mpr ⟨by decide, by decide, by decide⟩,
    (C5_parse_errors testFactory "0".data).1.mpr (by decide),
    (C5_parse_errors testFactory "00000000gggggggg!!".data).2.1.mpr
      ⟨by decide, by decide⟩,
    (C5_parse_errors testFactory "0000000000000005!".data).2.2.1.mpr
      ⟨by decide, by decide, by decide⟩⟩


/-- Claim C2: the digest prefix of every ticket produced by `new` equals
`hex(H(H(data0 ++ secret ++ data1) ++ secret))`, where `data0` is the
IP-version byte followed by the packed address bytes and `valid_until` as 4
big-endian bytes, and `data1` is the UTF-8 encoding of the percent-encoded
`user_id`, a NUL, the comma-joined percent-encoded tokens, a NUL, and the
percent-encoded `user_data`; each `_hexdigest` call works on copies and
hands back the factory (with its stored empty hash context) unchanged. -/
theorem C2_digest_construction (secret : List Nat)
    (hashFn : List Nat → List Nat) (ds : Nat)
    (hwf : HashWF (mkFactory secret hashFn ds)) (uid : List Char)
    (tks : List (List Char)) (ud : List Char) (vu : Int) (ip : Option IPAddr)
    (h0 : 0 ≤ vu) (h1 : vu < 4294967296) :
    (∃ t, (mkFactory secret hashFn ds).new uid tks ud vu ip = some t ∧
      t.take (ds * 2) = toHexChars (hashFn (hashFn
        (((ip.getD defaultIP).version :: ((ip.getD defaultIP).packed ++
            packBE4 vu.toNat)) ++ secret ++
          utf8Encode (pyQuote uid ++ Char.ofNat 0 ::
            (joinSep ',' (tks.map pyQuote) ++ Char.ofNat 0 :: pyQuote ud))) ++
        secret))) ∧
    (∀ d0 d1, hexdigestSt (mkFactory secret hashFn ds) d0 d1 =
      (toHexChars (hashFn (hashFn (d0 ++ secret ++ d1) ++ secret)),
        mkFactory secret hashFn ds)) := by
  constructor
  · refine ⟨_, new_eq_some uid tks ud h0 h1 ip, ?_⟩
    rw [List.append_assoc, List.append_assoc]
    have hdl : (digestOf (mkFactory secret hashFn ds)
        (data0Bytes (ip.getD defaultIP) vu.toNat)
        (data1Bytes uid tks ud)).length = ds * 2 :=
      digestOf_length hwf _ _
    rw [List.take_left' hdl]
    simp only [digestOf, hexdigestSt, mkFactory, data0Bytes, data1Bytes,
      List.nil_append, tokenStr_eq, userStr_eq]
  · intro d0 d1
    simp [hexdigestSt, mkFactory]

/-- Claim C2 witness: the digest construction at a concrete factory and
input. -/
theorem C2_witness :
    HashWF (mkFactory [1, 2] (constHash 4) 4) ∧ (0 : Int) ≤ 7 ∧
    (7 : Int) < 4294967296 ∧
    ((∃ t, (mkFactory [1, 2] (constHash 4) 4).new "u".data [] [] 7 none =
        some t ∧
      t.take (4 * 2) = toHexChars (constHash 4 (constHash 4
        (((Option.getD none defaultIP).version ::
            ((Option.getD none defaultIP).packed ++ packBE4 (7 : Int).toNat)) ++
          [1, 2] ++
          utf8Encode (pyQuote "u".data ++ Char.ofNat 0 ::
            (joinSep ',' (List.map pyQuote []) ++ Char.ofNat 0 ::
              pyQuote []))) ++
        [1, 2]))) ∧
    (∀ d0 d1, hexdigestSt (mkFactory [1, 2] (constHash 4) 4) d0 d1 =
      (toHexChars (constHash 4 (constHash 4 (d0 ++ [1, 2] ++ d1) ++ [1, 2])),
        mkFactory [1, 2] (constHash 4) 4))) :=
  ⟨constHash_wf [1, 2] 4, by omega, by omega,
    C2_digest_construction [1, 2] (constHash 4) 4 (constHash_wf [1, 2] 4)
      "u".data [] [] 7 none (by omega) (by omega)⟩

/-- Claim C6: a ticket is exactly the hex digest (`2 * digest_size`
lower-case hex characters), `valid_until` as 8 zero-padded lower-case hex
digits, the quoted `user_id`, `!`, the comma-joined quoted tokens (empty
for no tokens), `!`, and the quoted `user_data`; percent-encoding keeps
`,`, NUL and `!` out of every user-controlled field. -/
theorem C6_serialization (f : TicketFactory) (hwf : HashWF f)
    (uid : List Char) (tks : List (List Char)) (ud : List Char) (vu : Int)
    (ip : Option IPAddr) (h0 : 0 ≤ vu) (h1 : vu < 4294967296) :
    ∃ dg, f.new uid tks ud vu ip =
      some (dg ++ hexPad vu.toNat 8 ++ pyQuote uid ++
        '!' :: (joinSep ',' (tks.map pyQuote) ++ '!' :: pyQuote ud)) ∧
      dg.length = f.digestSize * 2 ∧
      (∀ c ∈ dg, isLowerHexChar c = true) ∧
      (∀ c ∈ hexPad vu.toNat 8, isLowerHexChar c = true) ∧
      (∀ s : List Char, (s = uid ∨ s ∈ tks ∨ s = ud) →
        ∀ c ∈ pyQuote s, c ≠ ',' ∧ c ≠ Char.ofNat 0 ∧ c ≠ '!') := by
  have hnew : f.new uid tks ud vu ip =
      some (digestOf f (data0Bytes (ip.getD defaultIP) vu.toNat)
          (data1Bytes uid tks ud) ++
        hexPad vu.toNat 8 ++ pyQuote uid ++
        '!' :: (joinSep ',' (tks.map pyQuote) ++ '!' :: pyQuote ud)) := by
    rw [new_eq_some uid tks ud h0 h1 ip, tokenStr_eq, userStr_eq]
  refine ⟨_, hnew, digestOf_length hwf _ _, ?_, ?_, ?_⟩
  · intro c hc
    simp only [digestOf, hexdigestSt] at hc
    obtain ⟨m, hm, rfl⟩ := toHexChars_mem (fun b hb => ((hwf _).2 b hb)) hc
    exact (nibbleChar_props hm).2.2.1
  · intro c hc
    obtain ⟨m, hm, rfl⟩ := hexPad_mem hc
    exact (nibbleChar_props hm).2.2.1
  · intro depr _ c hc
    have p := pyQuote_props c hc
    exact ⟨p.2.1, p.2.2.1, p.1⟩

/-- Claim C6 witness: the serialization shape at a concrete input. -/
theorem C6_witness :
    HashWF testFactory ∧ (0 : Int) ≤ 7 ∧ (7 : Int) < 4294967296 ∧
    (∃ dg, testFactory.new "u".data ["a b".data] "d".data 7 none =
      some (dg ++ hexPad (7 : Int).toNat 8 ++ pyQuote "u".data ++
        '!' :: (joinSep ',' (List.map pyQuote ["a b".data]) ++
          '!' :: pyQuote "d".data)) ∧
      dg.length = testFactory.digestSize * 2 ∧
      (∀ c ∈ dg, isLowerHexChar c = true) ∧
      (∀ c ∈ hexPad (7 : Int).toNat 8, isLowerHexChar c = true) ∧
      (∀ s : List Char, (s = "u".data ∨ s ∈ ["a b".data] ∨ s = "d".data) →
        ∀ c ∈ pyQuote s, c ≠ ',' ∧ c ≠ Char.ofNat 0 ∧ c ≠ '!')) :=
  ⟨testFactory_wf, by omega, by omega,
    C6_serialization testFactory testFactory_wf "u".data ["a b".data]
      "d".data 7 none (by omega) (by omega)⟩

/-- Claim C9: the empty `user_id` is accepted: `new` with empty fields
produces the minimal-length ticket ending in `!!`, which parses back to the
empty fields and passes `validate` when unexpired. -/
theorem C9_empty_user_id (f : TicketFactory) (hwf : HashWF f) (vu now : Int)
    (h0 : 0 ≤ vu) (h1 : vu < 4294967296) (hnow : now < vu) :
    ∃ t, f.new [] [] [] vu none = some t ∧
      t.length = minTicketSize f + 2 ∧
      t.drop (minTicketSize f) = ['!', '!'] ∧
      (∃ dg, f.parse t = .ok ⟨dg, [], [], [], vu⟩) ∧
      (∃ dg, f.validate t none now = .ok ⟨dg, [], [], [], vu⟩) := by
  have hT := @new_eq_some f [] [] [] vu h0 h1 none
  have hq0 : pyQuote ([] : List Char) = [] := rfl
  have hts0 : tokenStr [] = [] := rfl
  have hus0 : userStr ([] : List Char) = [] := rfl
  rw [hq0, hts0, hus0, List.append_nil, List.nil_append] at hT
  have hp := parse_new hwf [] [] [] h0 h1 none (by decide) hT
  have hdglen : (digestOf f (data0Bytes (Option.getD none defaultIP)
      vu.toNat) (data1Bytes [] [] [])).length = f.digestSize * 2 :=
    digestOf_length hwf _ _
  have htake : (digestOf f (data0Bytes (Option.getD none defaultIP) vu.toNat)
        (data1Bytes [] [] []) ++ hexPad vu.toNat 8 ++ ['!', '!']).take
      (f.digestSize * 2) =
      digestOf f (data0Bytes (Option.getD none defaultIP) vu.toNat)
        (data1Bytes [] [] []) := by
    rw [List.append_assoc, List.take_left' hdglen]
  refine ⟨_, hT, ?_, ?_, ⟨_, hp⟩, ?_⟩
  · simp [List.length_append, digestOf_length hwf, hexPad_length,
      minTicketSize]
  · have hlen2 : (digestOf f (data0Bytes (Option.getD none defaultIP)
        vu.toNat) (data1Bytes [] [] []) ++ hexPad vu.toNat 8).length =
        minTicketSize f := by
      simp [List.length_append, digestOf_length hwf, hexPad_length,
        minTicketSize]
    rw [List.append_assoc, ← List.append_assoc, List.drop_left' hlen2]
  · have hv := @validate_ok_some f _ none now _ _ hp hT
    rw [if_neg (fun hc => hc htake),
      if_neg (by show ¬(vu ≤ now); omega)] at hv
    exact ⟨_, hv⟩

/-- Claim C9 witness: empty user id at a concrete factory. -/
theorem C9_witness :
    HashWF testFactory ∧ (0 : Int) ≤ 5 ∧ (5 : Int) < 4294967296 ∧
    (4 : Int) < 5 ∧
    (∃ t, testFactory.new [] [] [] 5 none = some t ∧
      t.length = minTicketSize testFactory + 2 ∧
      t.drop (minTicketSize testFactory) = ['!', '!'] ∧
      (∃ dg, testFactory.parse t = .ok ⟨dg, [], [], [], 5⟩) ∧
      (∃ dg, testFactory.validate t none 4 = .ok ⟨dg, [], [], [], 5⟩)) :=
  ⟨testFactory_wf, by omega, by omega, by omega,
    C9_empty_user_id testFactory testFactory_wf 5 4 (by omega) (by omega)
      (by omega)⟩

/-- Claim C7: with secret `s3cret`, a 64-byte digest algorithm (SHA-512's
`digest_size`), user id `alice`, no tokens, no user data,
`valid_until = 1000000000` and no client IP, issuing and validating with
`now = 999999999` succeeds with exactly those fields, and validating with
`now = 1000000001` raises `ExpiredError`. -/
theorem C7_concrete_scenario (hashFn : List Nat → List Nat)
    (hwf : HashWF (mkFactory s3cretBytes hashFn 64)) :
    ∃ t, (mkFactory s3cretBytes hashFn 64).new "alice".data [] [] 1000000000
        none = some t ∧
      (∃ dg, (mkFactory s3cretBytes hashFn 64).validate t none 999999999 =
        .ok ⟨dg, "alice".data, [], [], 1000000000⟩) ∧
      (mkFactory s3cretBytes hashFn 64).validate t none 1000000001 =
        .error .expired := by
  have h0 : (0 : Int) ≤ 1000000000 := by omega
  have h1 : (1000000000 : Int) < 4294967296 := by omega
  have hT := @new_eq_some (mkFactory s3cretBytes hashFn 64) "alice".data []
    [] 1000000000 h0 h1 none
  have hp := parse_new hwf "alice".data [] [] h0 h1 none (by decide) hT
  have hdglen := digestOf_length hwf
    (data0Bytes (Option.getD none defaultIP) (1000000000 : Int).toNat)
    (data1Bytes "alice".data [] [])
  have htake : (digestOf (mkFactory s3cretBytes hashFn 64)
        (data0Bytes (Option.getD none defaultIP) (1000000000 : Int).toNat)
        (data1Bytes "alice".data [] []) ++
        hexPad (1000000000 : Int).toNat 8 ++ pyQuote "alice".data ++
        '!' :: (tokenStr [] ++ '!' :: userStr [])).take
      ((mkFactory s3cretBytes hashFn 64).digestSize * 2) =
      digestOf (mkFactory s3cretBytes hashFn 64)
        (data0Bytes (Option.getD none defaultIP) (1000000000 : Int).toNat)
        (data1Bytes "alice".data [] []) := by
    simp only [List.append_assoc]
    rw [List.take_left' hdglen]
  refine ⟨_, hT, ?_, ?_⟩
  · have hv := @validate_ok_some (mkFactory s3cretBytes hashFn 64) _ none
      999999999 _ _ hp hT
    rw [if_neg (fun hc => hc htake),
      if_neg (by show ¬((1000000000 : Int) ≤ 999999999); omega)] at hv
    exact ⟨_, hv⟩
  · have hv := @validate_ok_some (mkFactory s3cretBytes hashFn 64) _ none
      1000000001 _ _ hp hT
    rw [if_neg (fun hc => hc htake),
      if_pos (by show (1000000000 : Int) ≤ 1000000001; omega)] at hv
    exact hv

/-- Claim C7 witness: the scenario at a concrete 64-byte digest
function. -/
theorem C7_witness :
    HashWF (mkFactory s3cretBytes (constHash 64) 64) ∧
    (∃ t, (mkFactory s3cretBytes (constHash 64) 64).new "alice".data [] []
        1000000000 none = some t ∧
      (∃ dg, (mkFactory s3cretBytes (constHash 64) 64).validate t none
        999999999 = .ok ⟨dg, "alice".data, [], [], 1000000000⟩) ∧
      (mkFactory s3cretBytes (constHash 64) 64).validate t none 1000000001 =
        .error .expired) :=
  ⟨constHash_wf s3cretBytes 64,
    C7_concrete_scenario (constHash 64) (constHash_wf s3cretBytes 64)⟩

end TicketAuth
